import Mathlib

set_option maxRecDepth 8000

/-!
Shallow embedding of src/run.py (RSS digest pipeline).

Python strings are modelled as lists of characters (`Str`), datetimes as
integer timestamps, the standard-library RFC-822 date parser
(`email.utils.parsedate_to_datetime`, which may raise) as a parameter of
type `Str → Except Unit Int`, the XML document produced by
`xml.etree.ElementTree.fromstring` as a rose tree, the network fetch as a
`FetchInput` value describing whether `requests.get`/`raise_for_status`
raised, whether `ET.fromstring` raised, or which parsed document was
obtained, and the OpenAI generation call as a parameter of type
`Str → Except Str (Option Str)` (error payload: the exception type name,
success payload: `resp.output_text`, which may be `None`).
Exceptions escaping `main` are the `aborted` outcome; a call to
`send_telegram_message text` is the `delivered text` outcome.
-/

abbrev Str := List Char

/-- ASCII whitespace, the characters recognised by Python's default
`str.strip` / `str.split` on ASCII input (the repository's own literals are
ASCII-whitespace only). -/
def isSpaceChar (c : Char) : Bool :=
  c == ' ' || c == '\t' || c == '\n' || c == '\r' || c == '\x0b' || c == '\x0c'

/-- Python `str.lstrip()`. -/
def stripLeftWs (s : Str) : Str := s.dropWhile isSpaceChar

/-- Python `str.rstrip()`. -/
def stripRightWs (s : Str) : Str := (s.reverse.dropWhile isSpaceChar).reverse

/-- Python `str.strip()`. -/
def strip (s : Str) : Str := stripLeftWs (stripRightWs s)

/-- Helper for `splitWs`: accumulates the current word (reversed). -/
def splitWsAux : Str → Str → List Str
  | [], acc => if acc = [] then [] else [acc.reverse]
  | c :: cs, acc =>
    if isSpaceChar c then
      if acc = [] then splitWsAux cs [] else acc.reverse :: splitWsAux cs []
    else splitWsAux cs (c :: acc)

/-- Python `str.split()` with no separator: maximal runs of non-whitespace. -/
def splitWs (s : Str) : List Str := splitWsAux s []

/-- Python `sep.join(parts)`. -/
def joinSep (sep : Str) : List Str → Str
  | [] => []
  | [x] => x
  | x :: y :: rest => x ++ sep ++ joinSep sep (y :: rest)

/-- Concatenation of a list of strings (`"".join`). -/
def joinAll (l : List Str) : Str := l.foldr (fun a b => a ++ b) []

/-- Total character count of a list of strings. -/
def sumLens (l : List Str) : Nat := (l.map List.length).sum

/-- ElementTree node: tag, text payload (`None` allowed), children in
document order. -/
inductive XmlTree where
  | node (tag : Str) (text : Option Str) (children : List XmlTree)

def XmlTree.tag : XmlTree → Str
  | .node t _ _ => t

def XmlTree.text : XmlTree → Option Str
  | .node _ tx _ => tx

def XmlTree.children : XmlTree → List XmlTree
  | .node _ _ ch => ch

/-- ElementTree `elem.find(tag)`: first direct child with the tag. -/
def findChild (elem : XmlTree) (tag : Str) : Option XmlTree :=
  elem.children.find? (fun c => c.tag == tag)

/-- ElementTree `root.find(".//tag")`: first matching strict descendant in
document (preorder) order, searching the given child list. -/
def findDesc (tag : Str) : List XmlTree → Option XmlTree
  | [] => none
  | XmlTree.node t tx ch :: rest =>
    if t == tag then some (XmlTree.node t tx ch)
    else
      match findDesc tag ch with
      | some r => some r
      | none => findDesc tag rest

mutual
/-- Whether any element of the tree (the root included) carries the tag. -/
def hasTagTree (tag : Str) : XmlTree → Bool
  | .node t _ ch => t == tag || hasTagList tag ch

/-- Whether any element of the forest carries the tag. -/
def hasTagList (tag : Str) : List XmlTree → Bool
  | [] => false
  | c :: rest => hasTagTree tag c || hasTagList tag rest
end

/-- `_get_text(elem, tag)` from src/run.py: text of the first child with the
tag, stripped; empty when the child or its text is missing. -/
def _get_text (elem : XmlTree) (tag : Str) : Str :=
  match findChild elem tag with
  | none => []
  | some child =>
    match child.text with
    | none => []
    | some t => strip t

/-- The dictionaries appended to `items` in `fetch_rss_items`. -/
structure Item where
  title : Str
  link : Str
  published_dt : Option Int
  description : Str
  pub_raw : Str
deriving DecidableEq

/-- Lines 46-51 of src/run.py: `published_dt = None; if pub: try:
parsedate_to_datetime(pub) except Exception: published_dt = None`.
The `parser` argument stands for the standard-library
`parsedate_to_datetime`; a raised exception is its `Except.error`. -/
def normalizePub (parser : Str → Except Unit Int) (pub : Str) : Option Int :=
  if pub = [] then none
  else
    match parser pub with
    | .ok d => some d
    | .error _ => none

/-- One iteration of the `for item in channel.findall("item")` loop body:
the produced dictionary, or nothing when `if title and link:` fails. -/
def buildOne (parser : Str → Except Unit Int) (item : XmlTree) : Option Item :=
  let title := _get_text item ("title").data
  let link := _get_text item ("link").data
  let desc := _get_text item ("description").data
  let pub := _get_text item ("pubDate").data
  let published_dt := normalizePub parser pub
  if title ≠ [] ∧ link ≠ [] then
    some ⟨title, link, published_dt, desc, pub⟩
  else none

/-- The whole item loop, preserving document order. -/
def buildItems (parser : Str → Except Unit Int) (elems : List XmlTree) : List Item :=
  elems.filterMap (buildOne parser)

/-- Comparison `key(a) ≥ key(b)` for the Python sort key
`(x["published_dt"] is None, x["published_dt"])`: the key of an undated
item, `(True, None)`, is strictly greater than every dated key
`(False, dt)`; dated keys compare by timestamp. -/
def keyGeB (a b : Item) : Bool :=
  match a.published_dt, b.published_dt with
  | none, none => true
  | none, some _ => true
  | some _, none => false
  | some x, some y => y ≤ x

/-- Stable insertion used to realise `list.sort(key=..., reverse=True)`:
an element is placed before the first element whose key is ≤ its own, so
keys are non-increasing and ties keep original order (CPython's sort with
`reverse=True` is stable). -/
def insertD (a : Item) : List Item → List Item
  | [] => [a]
  | b :: bs => if keyGeB a b then a :: b :: bs else b :: insertD a bs

/-- `items.sort(key=lambda x: (x["published_dt"] is None, x["published_dt"]),
reverse=True)` from line 65 of src/run.py. -/
def pySortDesc (l : List Item) : List Item := l.foldr insertD []

/-- Outcome of the network fetch plus `ET.fromstring`:
`fetchFail` when `requests.get` or `raise_for_status` raises,
`parseFail` when `ET.fromstring` raises, otherwise the parsed root. -/
inductive FetchInput where
  | fetchFail
  | parseFail
  | doc (root : XmlTree)

/-- Exceptions that can escape `fetch_rss_items`. -/
inductive RunError where
  | fetchError
  | parseError
deriving DecidableEq

/-- `fetch_rss_items(rss_url, limit)` from src/run.py, lines 21-66.
The network and XML layers are summarised by `inp`; an uncaught exception
is the `Except.error` case. -/
def fetch_rss_items (inp : FetchInput) (parser : Str → Except Unit Int)
    (limit : Nat) : Except RunError (List Item) :=
  match inp with
  | .fetchFail => .error .fetchError
  | .parseFail => .error .parseError
  | .doc root =>
    let channel? :=
      match findChild root ("channel").data with
      | some c => some c
      | none => findDesc ("channel").data root.children
    match channel? with
    | none => .ok []
    | some channel =>
      let items := buildItems parser (channel.children.filter (fun c => c.tag == ("item").data))
      .ok ((pySortDesc items).take limit)

/-- Decimal rendering of a natural number. -/
def natToStr (n : Nat) : Str := Nat.toDigits 10 n

/-- Modelled rendering of `datetime.isoformat()`: datetimes are integer
timestamps in this embedding, so their canonical rendering is the decimal
numeral (an injective stand-in for the ISO 8601 string). -/
def isoformat (t : Int) : Str :=
  if t < 0 then '-' :: natToStr t.natAbs else natToStr t.toNat

/-- Line 75 of src/run.py: `it["published_dt"].isoformat() if
it["published_dt"] else (it["pub_raw"] or "sem data")`. -/
def renderDate (it : Item) : Str :=
  match it.published_dt with
  | some d => isoformat d
  | none => if it.pub_raw = [] then ("sem data").data else it.pub_raw

/-- One bullet of `build_prompt` (lines 76-81 of src/run.py), with its
1-based index. -/
def bullet (i : Nat) (it : Item) : Str :=
  natToStr i ++ (". Título: ").data ++ it.title
    ++ ("\n   Data: ").data ++ renderDate it
    ++ ("\n   Link: ").data ++ it.link
    ++ ("\n   Trecho/descrição: ").data ++ it.description.take 300

/-- The bullet list with indices starting at `i`
(`enumerate(items, start=1)`). -/
def bulletsFrom (i : Nat) : List Item → List Str
  | [] => []
  | it :: rest => bullet i it :: bulletsFrom (i + 1) rest

/-- Template text before the interpolated topic name (the f-string starts
with a newline that the final `.strip()` removes). -/
def promptPre : Str :=
  ("\nVocê é um curador de notícias de IA. Gere uma mensagem ÚNICA em português (PT-BR), objetiva, factual (sem opinião), com 5 notícias do tópico: \"").data

/-- Template text between the topic name and the joined bullets. -/
def promptMid : Str :=
  ("\".\n\nRegras:\n- Cada notícia deve ter: título em negrito, 4–6 linhas de resumo (misto: o que aconteceu + por que importa), e o link.\n- Ranqueie implicitamente considerando: Relevância, Data mais recente, Novidade, Impacto.\n- Evite paywall. Se parecer paywall, apenas cite o título + link e explique em 1 linha que é paywall.\n- Não invente fatos; use apenas o que está nos títulos/descrições fornecidos.\n\nItens coletados (RSS):\n").data

/-- `build_prompt(items, topic_name)` from src/run.py, lines 69-96. -/
def build_prompt (items : List Item) (topic_name : Str) : Str :=
  strip (promptPre ++ topic_name ++ promptMid
    ++ joinSep (("\n\n").data) (bulletsFrom 1 items) ++ ("\n").data)

/-- The message sent when `fetch_rss_items` returns no items
(lines 136-140 of src/run.py), split at the interpolated URL. -/
def cantReadPre : Str :=
  ("Radar IA: não consegui ler o RSS agora.\nFonte: ").data

/-- `f"Radar IA: não consegui ler o RSS agora.\nFonte: {rss_url}"`. -/
def cantReadMsg (rss_url : Str) : Str := cantReadPre ++ rss_url

/-- One fallback line `f"- {it['title']}\n  {it['link']}"` (line 161). -/
def fallbackLine (it : Item) : Str :=
  ("- ").data ++ it.title ++ ("\n  ").data ++ it.link

/-- The fallback digest of lines 159-162 of src/run.py: a header naming the
exception type, then one title+link line per item, joined by newlines. -/
def fallbackMsg (ename : Str) (items : List Item) : Str :=
  joinSep (("\n").data)
    ((("Radar IA (fallback) — não consegui resumir via OpenAI.\nMotivo: ").data
        ++ ename ++ ("\n").data) :: items.map fallbackLine)

/-- The truncation placeholder passed to `textwrap.shorten` on line 166. -/
def PH : Str := ("\n\n(...)").data

/-- The visible core of the placeholder: also what `placeholder.lstrip()`
leaves when the whole line is given up. -/
def MARKER : Str := ("(...)").data

/-- CPython `textwrap`: `' '.join(text.split())`, the whitespace collapse
`shorten` performs before wrapping. -/
def collapseWs (text : Str) : Str := joinSep ([' ']) (splitWs text)

/-- CPython `TextWrapper._split` on already-collapsed input: alternate word
chunks and single-space chunks. (The optional further subdivision of words
at hyphens — `break_on_hyphens` — only moves chunk boundaries inside words
and is not modelled; the repository's call site never depends on it for
the proved properties, and the concrete inputs evaluated here contain no
hyphens.) -/
def mkChunks : List Str → List Str
  | [] => []
  | [w] => [w]
  | w :: y :: rest => w :: ([' '] : Str) :: mkChunks (y :: rest)

/-- `_split` applied to a collapsed string. -/
def wordsepChunks (s : Str) : List Str := mkChunks (splitWs s)

/-- The greedy chunk-consuming loop of `TextWrapper._wrap_chunks`: starting
from `curLen`, take chunks while the running length stays within `width`.
Returns (cur_line, leftover chunks). -/
def greedyTake (width curLen : Nat) : List Str → List Str × List Str
  | [] => ([], [])
  | c :: cs =>
    if curLen + c.length ≤ width then
      let r := greedyTake width (curLen + c.length) cs
      (c :: r.1, r.2)
    else ([], c :: cs)

/-- `if cur_line and cur_line[-1].strip() == '': del cur_line[-1]`
(`drop_whitespace` handling; note Python treats the empty chunk as
whitespace-only). -/
def dropLastWs (line : List Str) : List Str :=
  match line.getLast? with
  | some c => if c.all isSpaceChar then line.dropLast else line
  | none => line

/-- The placeholder while-loop of `_wrap_chunks` under `max_lines=1`,
processed over the reversed current line: pop trailing chunks until the
last one is non-blank and the line plus placeholder fits, else (line
exhausted, no previous lines) emit `placeholder.lstrip()`. -/
def popLoopRev (width : Nat) (ph : Str) : List Str → Str
  | [] => ph.dropWhile isSpaceChar
  | c :: rest =>
    if (c.any (fun ch => !isSpaceChar ch))
        && decide (sumLens (c :: rest) + ph.length ≤ width) then
      joinAll ((c :: rest).reverse) ++ ph
    else popLoopRev width ph rest

/-- One `_wrap_chunks` iteration up to the append/placeholder decision:
greedy fill, `_handle_long_word` (with `break_long_words=True`: split the
oversized head chunk at the remaining space), then the trailing-whitespace
drop. Returns (cur_line, leftover chunks). -/
def wrapStep (width : Nat) (chunks : List Str) : List Str × List Str :=
  let g := greedyTake width 0 chunks
  let len0 := sumLens g.1
  let p :=
    match g.2 with
    | [] => (g.1, ([] : List Str))
    | c :: cs =>
      if width < c.length then
        (g.1 ++ [c.take (width - len0)], c.drop (width - len0) :: cs)
      else (g.1, c :: cs)
  (dropLastWs p.1, p.2)

/-- `TextWrapper._wrap_chunks` under `max_lines=1` followed by
`fill`'s join: emit the line as-is when every chunk was consumed (or only
a single blank chunk remains and the line fits), otherwise run the
placeholder loop. A line emptied by the whitespace drop starts the loop
over on the remaining chunks (the guard restating the strictly decreasing
measure is provably true whenever that branch is reached). -/
def wrapGo (width : Nat) (ph : Str) (chunks : List Str) : Str :=
  if chunks = [] then []
  else if (wrapStep width chunks).1 = [] then
    (if h : sumLens (wrapStep width chunks).2 + (wrapStep width chunks).2.length
          < sumLens chunks + chunks.length then
      wrapGo width ph (wrapStep width chunks).2
    else [])
  else if (wrapStep width chunks).2 = []
      ∨ ((wrapStep width chunks).2.length = 1
          ∧ ((wrapStep width chunks).2.headD []).all isSpaceChar = true
          ∧ sumLens (wrapStep width chunks).1 ≤ width) then
    joinAll (wrapStep width chunks).1
  else popLoopRev width ph (wrapStep width chunks).1.reverse
termination_by sumLens chunks + chunks.length
decreasing_by exact h

/-- `textwrap.shorten(text, width=3800, placeholder="\n\n(...)")` as called
on line 166 of src/run.py: collapse whitespace, split into chunks, wrap to
a single line of at most 3800 characters. -/
def shorten3800 (text : Str) : Str :=
  wrapGo 3800 PH (wordsepChunks (collapseWs text))

/-- Lines 165-166 of src/run.py: `if len(text) > 3800: text =
textwrap.shorten(text, width=3800, placeholder="\n\n(...)")`. -/
def boundOutput (text : Str) : Str :=
  if 3800 < text.length then shorten3800 text else text

/-- What `main` does with the outside world: either an exception escapes
(`aborted`) or `send_telegram_message` is invoked with a final text
(`delivered`). -/
inductive RunOutcome where
  | delivered (text : Str)
  | aborted (e : RunError)
deriving DecidableEq

/-- Model of `main()` from src/run.py, lines 112-168, after configuration loading
(the excluded configuration layer): fetch, empty-items notice, top-5
slice, prompt build, generation with blank-check, fallback composition,
output bounding, delivery. `gen` models
`client.responses.create(...).output_text`: `Except.error name` when the
call raises an exception of type `name`, `Except.ok output_text`
otherwise (`output_text` itself optional). -/
def mainRun (inp : FetchInput) (parser : Str → Except Unit Int)
    (gen : Str → Except Str (Option Str)) (rss_url topic_name : Str) : RunOutcome :=
  match fetch_rss_items inp parser 10 with
  | .error e => .aborted e
  | .ok items =>
    if items = [] then .delivered (cantReadMsg rss_url)
    else
      let top5 := items.take 5
      let prompt := build_prompt top5 topic_name
      let text :=
        match gen prompt with
        | .ok ot =>
          let t := strip (ot.getD [])
          if t = [] then fallbackMsg (("RuntimeError").data) top5 else t
        | .error ename => fallbackMsg ename top5
      .delivered (boundOutput text)

/-! Utility lemmas about the string model. -/

theorem joinSep_cons₂ (sep x y : Str) (rest : List Str) :
    joinSep sep (x :: y :: rest) = x ++ sep ++ joinSep sep (y :: rest) := rfl

theorem infix_joinSep_of_mem (sep : Str) {x : Str} {ls : List Str}
    (h : x ∈ ls) : x <:+: joinSep sep ls := by
  induction ls with
  | nil => cases h
  | cons a rest ih =>
    cases h with
    | head =>
      cases rest with
      | nil => exact List.infix_rfl
      | cons y t =>
        rw [joinSep_cons₂]
        exact ((List.prefix_append x sep).trans (List.prefix_append _ _)).isInfix
    | tail _ hmem =>
      cases rest with
      | nil => cases hmem
      | cons y t =>
        rw [joinSep_cons₂]
        exact (ih hmem).trans (List.suffix_append (a ++ sep) _).isInfix

theorem stripLeftWs_mono {x w : Str} (h : x <:+: w) :
    stripLeftWs x <:+: stripLeftWs w := by
  obtain ⟨s, t, rfl⟩ := h
  unfold stripLeftWs
  rw [List.append_assoc, List.dropWhile_append]
  by_cases hs : (s.dropWhile isSpaceChar).isEmpty
  · simp only [hs, if_pos]
    rw [List.dropWhile_append]
    by_cases hx : (x.dropWhile isSpaceChar).isEmpty
    · simp only [hx, if_pos]
      rw [List.isEmpty_iff.mp hx]
      exact List.nil_infix
    · simp only [hx, if_neg, Bool.not_eq_true]
      exact (List.prefix_append _ _).isInfix
  · simp only [hs, if_neg, Bool.not_eq_true]
    have h1 : x.dropWhile isSpaceChar <:+: x := (List.dropWhile_suffix _).isInfix
    refine h1.trans ?_
    rw [← List.append_assoc]
    exact List.infix_append _ _ _

theorem stripRightWs_mono {x w : Str} (h : x <:+: w) :
    stripRightWs x <:+: stripRightWs w := by
  unfold stripRightWs
  rw [List.reverse_infix]
  exact stripLeftWs_mono (List.reverse_infix.mpr h)

theorem strip_mono {x w : Str} (h : x <:+: w) : strip x <:+: strip w :=
  stripLeftWs_mono (stripRightWs_mono h)

theorem joinAll_length (l : List Str) : (joinAll l).length = sumLens l := by
  induction l with
  | nil => rfl
  | cons a rest ih => simp [joinAll, sumLens, List.length_append] at ih ⊢; omega

theorem sumLens_append (a b : List Str) :
    sumLens (a ++ b) = sumLens a + sumLens b := by
  simp [sumLens]

theorem sumLens_reverse (l : List Str) : sumLens l.reverse = sumLens l := by
  simp only [sumLens, List.map_reverse]
  exact List.sum_reverse _

theorem sumLens_dropLast_le (l : List Str) : sumLens l.dropLast ≤ sumLens l := by
  induction l with
  | nil => simp
  | cons a rest ih =>
    cases rest with
    | nil => simp [sumLens]
    | cons b t =>
      simp only [List.dropLast_cons₂, sumLens, List.map_cons, List.sum_cons] at ih ⊢
      omega

/-! Properties of the whitespace split and the chunk construction. -/

theorem splitWsAux_words (s : Str) : ∀ acc : Str,
    acc.all (fun c => !isSpaceChar c) = true →
    ∀ w ∈ splitWsAux s acc, w ≠ [] ∧ w.all (fun c => !isSpaceChar c) = true := by
  induction s with
  | nil =>
    intro acc hacc w hw
    simp only [splitWsAux] at hw
    split at hw
    · cases hw
    next hne =>
      simp only [List.mem_singleton] at hw
      subst hw
      refine ⟨by simpa using hne, by simpa using hacc⟩
  | cons c cs ih =>
    intro acc hacc w hw
    simp only [splitWsAux] at hw
    by_cases hsp : isSpaceChar c
    · rw [if_pos hsp] at hw
      split at hw
      · exact ih [] rfl w hw
      next hne =>
        rcases List.mem_cons.mp hw with h | h
        · subst h
          refine ⟨by simpa using hne, by simpa using hacc⟩
        · exact ih [] rfl w h
    · rw [if_neg hsp] at hw
      refine ih (c :: acc) ?_ w hw
      simp only [List.all_cons, Bool.and_eq_true]
      exact ⟨by simpa using hsp, hacc⟩

theorem splitWs_words (s : Str) :
    ∀ w ∈ splitWs s, w ≠ [] ∧ w.all (fun c => !isSpaceChar c) = true :=
  splitWsAux_words s [] rfl

theorem splitWsAux_nonspace_run (w : Str) (hw : w.all (fun c => !isSpaceChar c) = true) :
    ∀ s acc, splitWsAux (w ++ s) acc = splitWsAux s (w.reverse ++ acc) := by
  induction w with
  | nil => intro s acc; simp
  | cons c cs ih =>
    intro s acc
    simp only [List.all_cons, Bool.and_eq_true] at hw
    have hc : ¬ isSpaceChar c = true := by
      simpa using hw.1
    show splitWsAux (c :: (cs ++ s)) acc = _
    simp only [splitWsAux, if_neg hc]
    rw [ih hw.2]
    simp

theorem splitWs_joinSep (ws : List Str)
    (h : ∀ w ∈ ws, w ≠ [] ∧ w.all (fun c => !isSpaceChar c) = true) :
    splitWs (joinSep ([' ']) ws) = ws := by
  induction ws with
  | nil => rfl
  | cons w rest ih =>
    have hw := h w (List.mem_cons_self _ _)
    cases rest with
    | nil =>
      show splitWsAux w [] = [w]
      have : splitWsAux w [] = splitWsAux (w ++ []) [] := by simp
      rw [this, splitWsAux_nonspace_run w hw.2]
      simp only [splitWsAux, List.append_nil]
      rw [if_neg (by simpa using hw.1)]
      simp
    | cons y t =>
      rw [joinSep_cons₂, List.append_assoc]
      show splitWsAux (w ++ ([' '] ++ joinSep ([' ']) (y :: t))) [] = w :: y :: t
      rw [splitWsAux_nonspace_run w hw.2]
      show splitWsAux (' ' :: joinSep ([' ']) (y :: t)) (w.reverse ++ []) = w :: y :: t
      simp only [splitWsAux]
      rw [if_pos (by simp [isSpaceChar])]
      rw [if_neg (by simpa using hw.1)]
      simp only [List.append_nil, List.reverse_reverse]
      show w :: splitWs (joinSep ([' ']) (y :: t)) = w :: y :: t
      rw [ih (fun x hx => h x (List.mem_cons_of_mem _ hx))]

theorem mkChunks_ne_nil (ws : List Str) (h : ws ≠ []) : mkChunks ws ≠ [] := by
  cases ws with
  | nil => exact absurd rfl h
  | cons w rest => cases rest <;> simp [mkChunks]

theorem mkChunks_head (ws : List Str) (h : ws ≠ []) :
    (mkChunks ws).head? = ws.head? := by
  cases ws with
  | nil => exact absurd rfl h
  | cons w rest => cases rest <;> rfl

theorem sumLens_mkChunks (ws : List Str) :
    sumLens (mkChunks ws) = (joinSep ([' ']) ws).length := by
  induction ws with
  | nil => rfl
  | cons w rest ih =>
    cases rest with
    | nil => simp [mkChunks, joinSep, sumLens]
    | cons y t =>
      rw [joinSep_cons₂]
      simp only [mkChunks, sumLens, List.map_cons, List.sum_cons, List.length_append] at ih ⊢
      omega

theorem mkChunks_mem (ws : List Str) : ∀ c ∈ mkChunks ws, c = [' '] ∨ c ∈ ws := by
  induction ws with
  | nil => intro c hc; cases hc
  | cons w rest ih =>
    intro c hc
    cases rest with
    | nil =>
      simp only [mkChunks, List.mem_singleton] at hc
      exact Or.inr (hc ▸ List.mem_cons_self _ _)
    | cons y t =>
      simp only [mkChunks, List.mem_cons] at hc
      rcases hc with h | h | h
      · exact Or.inr (h ▸ List.mem_cons_self _ _)
      · exact Or.inl h
      · rcases ih c h with h' | h'
        · exact Or.inl h'
        · exact Or.inr (List.mem_cons_of_mem _ h')

theorem mkChunks_last_mem (ws : List Str) :
    ∀ l c, mkChunks ws = l ++ [c] → c ∈ ws := by
  induction ws with
  | nil => intro l c h; simp [mkChunks] at h
  | cons w rest ih =>
    intro l c h
    cases rest with
    | nil =>
      simp only [mkChunks] at h
      have : l = [] ∧ c = w := by
        cases l with
        | nil => simp at h; exact ⟨rfl, h.symm⟩
        | cons a t =>
          have := congrArg List.length h
          simp at this
      exact this.2 ▸ List.mem_cons_self _ _
    | cons y t =>
      simp only [mkChunks] at h
      cases l with
      | nil =>
        injection h with h1 h2
        exact absurd h2 (List.cons_ne_nil _ _)
      | cons a l' =>
        simp only [List.cons_append, List.cons.injEq] at h
        cases l' with
        | nil =>
          have h2 := h.2
          simp only [List.nil_append] at h2
          injection h2 with h3 h4
          exact absurd h4 (mkChunks_ne_nil (y :: t) (by simp))
        | cons b l'' =>
          simp only [List.cons_append, List.cons.injEq] at h
          exact List.mem_cons_of_mem _ (ih l'' c h.2.2)

/-! Properties of the wrapping machinery. -/

theorem greedyTake_append (w : Nat) : ∀ (cs : List Str) (cl : Nat),
    (greedyTake w cl cs).1 ++ (greedyTake w cl cs).2 = cs := by
  intro cs
  induction cs with
  | nil => intro cl; rfl
  | cons c t ih =>
    intro cl
    simp only [greedyTake]
    split
    · simpa using ih (cl + c.length)
    · rfl

theorem greedyTake_le (w : Nat) : ∀ (cs : List Str) (cl : Nat), cl ≤ w →
    cl + sumLens (greedyTake w cl cs).1 ≤ w := by
  intro cs
  induction cs with
  | nil => intro cl h; simpa [greedyTake, sumLens] using h
  | cons c t ih =>
    intro cl h
    simp only [greedyTake]
    split
    next hfit =>
      have := ih (cl + c.length) hfit
      simp only [sumLens, List.map_cons, List.sum_cons] at this ⊢
      omega
    · simpa [sumLens] using h

theorem popLoopRev_length_le (w : Nat) (ph : Str)
    (hph : (ph.dropWhile isSpaceChar).length ≤ w) :
    ∀ l, (popLoopRev w ph l).length ≤ w := by
  intro l
  induction l with
  | nil => exact hph
  | cons c rest ih =>
    simp only [popLoopRev]
    split
    next hc =>
      have hsum : sumLens (c :: rest) + ph.length ≤ w :=
        of_decide_eq_true (Bool.and_elim_right hc)
      rw [List.length_append, joinAll_length, sumLens_reverse]
      omega
    · exact ih

theorem popLoopRev_marker (w : Nat) : ∀ l, MARKER <:+: popLoopRev w PH l := by
  intro l
  induction l with
  | nil =>
    show MARKER <:+: PH.dropWhile isSpaceChar
    have h : PH.dropWhile isSpaceChar = MARKER := by decide
    rw [h]
  | cons c rest ih =>
    simp only [popLoopRev]
    split
    · have hsub : MARKER <:+: PH := by decide
      exact hsub.trans (List.suffix_append _ _).isInfix
    · exact ih

theorem wrapStep_sumLens_le (w : Nat) (chunks : List Str) :
    sumLens (wrapStep w chunks).1 ≤ w := by
  unfold wrapStep
  have hg := greedyTake_le w chunks 0 (Nat.zero_le w)
  simp only [Nat.zero_add] at hg
  have hmid : ∀ p : List Str × List Str, sumLens p.1 ≤ w →
      sumLens (dropLastWs p.1) ≤ w := by
    intro p hp
    unfold dropLastWs
    split
    · split
      · exact le_trans (sumLens_dropLast_le _) hp
      · exact hp
    · exact hp
  refine hmid _ ?_
  split
  · exact hg
  next c cs heq =>
    split
    next hlong =>
      rw [sumLens_append]
      have htake : (c.take (w - sumLens (greedyTake w 0 chunks).1)).length
          ≤ w - sumLens (greedyTake w 0 chunks).1 := by
        simpa using List.length_take_le _ _
      simp only [sumLens, List.map_cons, List.sum_cons, List.map_nil,
        List.sum_nil] at htake hg ⊢
      omega
    · exact hg

theorem wrapGo_length_le_aux (w : Nat) (ph : Str)
    (hph : (ph.dropWhile isSpaceChar).length ≤ w) :
    ∀ n chunks, sumLens chunks + chunks.length ≤ n →
    (wrapGo w ph chunks).length ≤ w := by
  intro n
  induction n with
  | zero =>
    intro chunks hc
    have hnil : chunks = [] := by
      cases chunks with
      | nil => rfl
      | cons a t => simp only [List.length_cons] at hc; omega
    subst hnil
    rw [wrapGo]
    simp
  | succ n ih =>
    intro chunks hc
    rw [wrapGo]
    split
    · simp
    · split
      · split
        next hlt => exact ih _ (by omega)
        · simp
      · split
        · rw [joinAll_length]
          exact wrapStep_sumLens_le w chunks
        · exact popLoopRev_length_le w ph hph _

theorem wrapGo_length_le (w : Nat) (ph : Str)
    (hph : (ph.dropWhile isSpaceChar).length ≤ w) (chunks : List Str) :
    (wrapGo w ph chunks).length ≤ w :=
  wrapGo_length_le_aux w ph hph (sumLens chunks + chunks.length) chunks le_rfl

theorem greedyTake_stop (w : Nat) : ∀ (cs : List Str) (cl : Nat) (c : Str)
    (cs' : List Str), (greedyTake w cl cs).2 = c :: cs' →
    w < cl + sumLens (greedyTake w cl cs).1 + c.length := by
  intro cs
  induction cs with
  | nil => intro cl c cs' h; simp [greedyTake] at h
  | cons a t ih =>
    intro cl c cs' h
    by_cases hfit : cl + a.length ≤ w
    · simp only [greedyTake, if_pos hfit] at h ⊢
      have := ih (cl + a.length) c cs' h
      simp only [sumLens, List.map_cons, List.sum_cons] at this ⊢
      omega
    · simp only [greedyTake, if_neg hfit] at h ⊢
      injection h with h1 h2
      subst h1
      simp only [sumLens, List.map_nil, List.sum_nil]
      omega

theorem all_space_eq_false (u : Str) (hne : u ≠ [])
    (hnw : u.all (fun c => !isSpaceChar c) = true) : u.all isSpaceChar = false := by
  cases u with
  | nil => exact absurd rfl hne
  | cons a t =>
    simp only [List.all_cons, Bool.and_eq_true] at hnw
    have ha : isSpaceChar a = false := by
      simpa using hnw.1
    simp [List.all_cons, ha]

theorem dropLastWs_ne_nil (l : List Str) (x : Str) (hx : l.head? = some x)
    (hnw : x.all isSpaceChar = false) : dropLastWs l ≠ [] := by
  cases l with
  | nil => cases hx
  | cons a t =>
    have hax : a = x := by
      simpa using hx
    subst hax
    cases t with
    | nil =>
      unfold dropLastWs
      simp only [List.getLast?_singleton]
      rw [if_neg (by simp [hnw])]
      simp
    | cons b t' =>
      unfold dropLastWs
      split
      · split
        · rw [List.dropLast_cons₂]
          simp
        · simp
      · simp

theorem wrapStep_eq_long (w : Nat) (chunks : List Str) (c : Str) (cs : List Str)
    (hg : (greedyTake w 0 chunks).2 = c :: cs) (hlong : w < c.length) :
    wrapStep w chunks =
      (dropLastWs ((greedyTake w 0 chunks).1
          ++ [c.take (w - sumLens (greedyTake w 0 chunks).1)]),
        c.drop (w - sumLens (greedyTake w 0 chunks).1) :: cs) := by
  simp only [wrapStep, hg]
  rw [if_pos hlong]

theorem wrapStep_eq_short (w : Nat) (chunks : List Str) (c : Str) (cs : List Str)
    (hg : (greedyTake w 0 chunks).2 = c :: cs) (hshort : ¬ w < c.length) :
    wrapStep w chunks = (dropLastWs (greedyTake w 0 chunks).1, c :: cs) := by
  simp only [wrapStep, hg]
  rw [if_neg hshort]

theorem wrapGo_marker_of_overflow (ws : List Str)
    (hws : ∀ u ∈ ws, u ≠ [] ∧ u.all (fun c => !isSpaceChar c) = true)
    (hsum : 3800 < sumLens (mkChunks ws)) :
    MARKER <:+: wrapGo 3800 PH (mkChunks ws) := by
  have hne : mkChunks ws ≠ [] := by
    intro h
    rw [h] at hsum
    simp [sumLens] at hsum
  have hwsne : ws ≠ [] := by
    intro h
    subst h
    exact hne rfl
  obtain ⟨w1, t1, hws1⟩ : ∃ w1 t1, ws = w1 :: t1 := by
    cases ws with
    | nil => exact absurd rfl hwsne
    | cons a t => exact ⟨a, t, rfl⟩
  have hw1 := hws w1 (by rw [hws1]; exact List.mem_cons_self _ _)
  have hhead : (mkChunks ws).head? = some w1 := by
    rw [mkChunks_head ws hwsne, hws1]
    rfl
  have hsplit := greedyTake_append 3800 (mkChunks ws) 0
  have hlen0 := greedyTake_le 3800 (mkChunks ws) 0 (Nat.zero_le _)
  simp only [Nat.zero_add] at hlen0
  have hrest : (greedyTake 3800 0 (mkChunks ws)).2 ≠ [] := by
    intro h
    rw [h, List.append_nil] at hsplit
    rw [hsplit] at hlen0
    omega
  obtain ⟨c, cs, hg2⟩ : ∃ c cs, (greedyTake 3800 0 (mkChunks ws)).2 = c :: cs := by
    cases hg : (greedyTake 3800 0 (mkChunks ws)).2 with
    | nil => exact absurd hg hrest
    | cons a t => exact ⟨a, t, rfl⟩
  have hstop := greedyTake_stop 3800 (mkChunks ws) 0 c cs hg2
  simp only [Nat.zero_add] at hstop
  have hcmem : c ∈ mkChunks ws := by
    rw [← hsplit, hg2]
    exact List.mem_append_right _ (List.mem_cons_self _ _)
  by_cases hlong : 3800 < c.length
  · have hstep := wrapStep_eq_long 3800 (mkChunks ws) c cs hg2 hlong
    have hcws : c ∈ ws := by
      rcases mkChunks_mem ws c hcmem with h | h
      · rw [h] at hlong
        simp at hlong
      · exact h
    have hc := hws c hcws
    have hdropne : c.drop (3800 - sumLens (greedyTake 3800 0 (mkChunks ws)).1) ≠ [] := by
      intro h
      have := congrArg List.length h
      simp only [List.length_drop, List.length_nil] at this
      omega
    have hdropnb : (c.drop (3800 - sumLens (greedyTake 3800 0 (mkChunks ws)).1)).all
        isSpaceChar = false := by
      refine all_space_eq_false _ hdropne ?_
      exact List.all_eq_true.mpr fun x hx =>
        List.all_eq_true.mp hc.2 x (List.mem_of_mem_drop hx)
    have hline2 : dropLastWs ((greedyTake 3800 0 (mkChunks ws)).1
        ++ [c.take (3800 - sumLens (greedyTake 3800 0 (mkChunks ws)).1)]) ≠ [] := by
      cases hg1 : (greedyTake 3800 0 (mkChunks ws)).1 with
      | nil =>
        simp only [sumLens, List.map_nil, List.sum_nil, List.nil_append, Nat.sub_zero]
        refine dropLastWs_ne_nil _ (c.take 3800) rfl ?_
        refine all_space_eq_false _ ?_ ?_
        · intro h
          have := congrArg List.length h
          simp only [List.length_take, List.length_nil] at this
          omega
        · exact List.all_eq_true.mpr fun x hx =>
            List.all_eq_true.mp hc.2 x (List.mem_of_mem_take hx)
      | cons a t =>
        rw [hg1, hg2] at hsplit
        have haw : a = w1 := by
          have h1 := congrArg List.head? hsplit
          rw [hhead] at h1
          simp only [List.cons_append, List.head?_cons] at h1
          exact Option.some.inj h1
        refine dropLastWs_ne_nil _ a ?_ ?_
        · simp
        · rw [haw]
          exact all_space_eq_false _ hw1.1 hw1.2
    rw [wrapGo]
    rw [if_neg hne, hstep]
    dsimp only
    rw [if_neg hline2]
    rw [if_neg ?_]
    · exact popLoopRev_marker 3800 _
    · rintro (h | ⟨h1, h2, h3⟩)
      · exact List.cons_ne_nil _ _ h
      · rw [List.headD_cons, hdropnb] at h2
        exact Bool.false_ne_true h2
  · have hstep := wrapStep_eq_short 3800 (mkChunks ws) c cs hg2 hlong
    have hg1ne : (greedyTake 3800 0 (mkChunks ws)).1 ≠ [] := by
      intro h
      rw [h] at hstop
      simp only [sumLens, List.map_nil, List.sum_nil] at hstop
      omega
    obtain ⟨a, t, hg1⟩ : ∃ a t, (greedyTake 3800 0 (mkChunks ws)).1 = a :: t := by
      cases hg : (greedyTake 3800 0 (mkChunks ws)).1 with
      | nil => exact absurd hg hg1ne
      | cons x y => exact ⟨x, y, rfl⟩
    rw [hg1, hg2] at hsplit
    have haw : a = w1 := by
      have h1 := congrArg List.head? hsplit
      rw [hhead] at h1
      simp only [List.cons_append, List.head?_cons] at h1
      exact Option.some.inj h1
    have hline2 : dropLastWs (greedyTake 3800 0 (mkChunks ws)).1 ≠ [] := by
      rw [hg1]
      refine dropLastWs_ne_nil _ a ?_ ?_
      · simp
      · rw [haw]
        exact all_space_eq_false _ hw1.1 hw1.2
    rw [wrapGo]
    rw [if_neg hne, hstep]
    dsimp only
    rw [if_neg hline2]
    rw [if_neg ?_]
    · exact popLoopRev_marker 3800 _
    · rintro (h | ⟨h1, h2, h3⟩)
      · exact List.cons_ne_nil _ _ h
      · simp only [List.length_cons] at h1
        have hcs : cs = [] := List.length_eq_zero.mp (by omega)
        subst hcs
        have hcws : c ∈ ws := mkChunks_last_mem ws (a :: t) c hsplit.symm
        have hc := hws c hcws
        rw [List.headD_cons, all_space_eq_false c hc.1 hc.2] at h2
        exact Bool.false_ne_true h2

/-! Concrete fixtures used by the claim evaluations. -/

/-- A date parser that fails on everything (every call raises). -/
def parser0 : Str → Except Unit Int := fun _ => .error ()

/-- A date parser accepting exactly the string `d1` (timestamp 100). -/
def parserD : Str → Except Unit Int :=
  fun s => if s = ("d1").data then .ok 100 else .error ()

/-- A generation stub returning a fixed successful summary. -/
def gen0 : Str → Except Str (Option Str) := fun _ => .ok (some (("resumo").data))

/-- A generation stub that raises an exception of type `APIError`. -/
def genFail : Str → Except Str (Option Str) := fun _ => .error (("APIError").data)

def url0 : Str := ("http://feed.example/rss").data

def urlA : Str := ("http://a").data

def urlB : Str := ("http://b").data

def topic0 : Str := ("IA").data

/-- Feed item with a parsable `pubDate` (`d1`) and a padded title. -/
def itemElemDated : XmlTree :=
  .node ("item").data none
    [ .node ("title").data (some ((" A1 ").data)) []
    , .node ("link").data (some (("http://a1").data)) []
    , .node ("pubDate").data (some (("d1").data)) [] ]

/-- Feed item without a `pubDate` element. -/
def itemElemUndated : XmlTree :=
  .node ("item").data none
    [ .node ("title").data (some (("A2").data)) []
    , .node ("link").data (some (("http://a2").data)) [] ]

/-- Feed item whose title strips to the empty string. -/
def badElem : XmlTree :=
  .node ("item").data none
    [ .node ("title").data (some (("   ").data)) []
    , .node ("link").data (some (("x").data)) [] ]

/-- RSS document with a dated item followed by an undated one. -/
def rssDoc2 : XmlTree :=
  .node ("rss").data none
    [ .node ("channel").data none [itemElemDated, itemElemUndated] ]

/-- RSS document whose channel holds no items. -/
def emptyChannelDoc : XmlTree :=
  .node ("rss").data none [ .node ("channel").data none [] ]

/-- Well-formed XML with no `channel` element at any depth. -/
def noChannelDoc : XmlTree :=
  .node ("html").data none [ .node ("body").data none [ .node ("p").data none [] ] ]

/-! Claim C1. -/

/-- C1: the claim states that the ranked sequence is sorted by publishedAt
descending with unknown-dated candidates strictly after all known-dated
ones (as the comment on line 64 of src/run.py also promises). The code
violates it: on a feed with a dated item followed by an undated item, the
sort key `(published_dt is None, published_dt)` combined with
`reverse=True` also reverses the None flag, so the undated item is placed
FIRST. This evaluation exhibits the bug: the output list starts with the
unknown-dated candidate even though a known-dated one exists. -/
theorem C1_unknown_dates_sort_first :
    fetch_rss_items (.doc rssDoc2) parserD 10 =
      .ok [⟨("A2").data, ("http://a2").data, none, [], []⟩,
           ⟨("A1").data, ("http://a1").data, some 100, [], ("d1").data⟩] := by
  rfl

/-! Claim C2. -/

/-- Modelled from the spec: the RecencyFilter of spec §4.4 is not present
in src/run.py (the file applies no lookback filtering at all); this
definition follows the spec words "a Candidate passes if publishedAt is
known AND publishedAt ≥ currentTime − lookbackDays", with timestamps as
integers in day units. -/
def recencyFilter (lookbackDays : Nat) (currentTime : Int)
    (cands : List Item) : List Item :=
  cands.filter fun it =>
    match it.published_dt with
    | none => false
    | some d => decide (currentTime - (lookbackDays : Int) ≤ d)

/-- C2: a candidate is retained by the recency filter iff its publishedAt
is known and at least currentTime − lookbackDays; candidates with unknown
publishedAt are always excluded. -/
theorem C2_recency_filter (lookbackDays : Nat) (currentTime : Int)
    (cands : List Item) (it : Item) :
    (it ∈ recencyFilter lookbackDays currentTime cands ↔
      it ∈ cands ∧ ∃ d, it.published_dt = some d ∧
        currentTime - (lookbackDays : Int) ≤ d)
    ∧ (it.published_dt = none →
        it ∉ recencyFilter lookbackDays currentTime cands) := by
  constructor
  · rw [recencyFilter, List.mem_filter]
    constructor
    · rintro ⟨h1, h2⟩
      refine ⟨h1, ?_⟩
      cases hd : it.published_dt with
      | none => rw [hd] at h2; simp at h2
      | some d =>
        rw [hd] at h2
        exact ⟨d, rfl, of_decide_eq_true h2⟩
    · rintro ⟨h1, d, hd, hle⟩
      refine ⟨h1, ?_⟩
      rw [hd]
      simpa using hle
  · intro hnone hmem
    rw [recencyFilter, List.mem_filter, hnone] at hmem
    simp at hmem

/-- C2 witness: an unknown-dated candidate is excluded at a concrete
configuration. -/
theorem C2_recency_filter_witness :
    (⟨("T").data, ("L").data, none, [], []⟩ : Item) ∉
      recencyFilter 7 1000 [⟨("T").data, ("L").data, none, [], []⟩] :=
  (C2_recency_filter 7 1000 _ _).2 rfl

/-! Claim C6. -/

/-- C6: every built candidate has a non-empty trimmed title and link, and
a raw item whose trimmed title or link is empty yields no candidate. -/
theorem C6_discard_invalid :
    (∀ parser elems it, it ∈ buildItems parser elems →
      it.title ≠ [] ∧ it.link ≠ [])
    ∧ (∀ parser e, _get_text e ("title").data = [] ∨ _get_text e ("link").data = [] →
        buildOne parser e = none) := by
  constructor
  · intro parser elems it hit
    obtain ⟨e, he, hbo⟩ := List.mem_filterMap.mp hit
    simp only [buildOne] at hbo
    split at hbo
    next hcond =>
      cases hbo
      exact ⟨hcond.1, hcond.2⟩
    next => cases hbo
  · intro parser e h
    simp only [buildOne]
    rw [if_neg ?_]
    rcases h with h | h
    · exact fun hc => hc.1 h
    · exact fun hc => hc.2 h

/-- C6 witness: the undated fixture item is built (with non-empty title
and link), while the blank-title fixture is discarded. -/
theorem C6_discard_invalid_witness :
    ((⟨("A2").data, ("http://a2").data, none, [], []⟩ : Item).title ≠ []
      ∧ (⟨("A2").data, ("http://a2").data, none, [], []⟩ : Item).link ≠ [])
    ∧ buildOne parser0 badElem = none :=
  ⟨C6_discard_invalid.1 parser0 [itemElemUndated] _ (by decide),
   C6_discard_invalid.2 parser0 badElem (Or.inl (by rfl))⟩

/-! Claim C7. -/

/-- C7: date normalization is total — the empty published string and any
parser failure degrade to the unknown value (`none`); a known value can
only come from a successful parse; and no date input can make
`fetch_rss_items` fail on a parsed document. -/
theorem C7_normalization_total (parser : Str → Except Unit Int) (pub : Str) :
    (pub = [] → normalizePub parser pub = none)
    ∧ (∀ e : Unit, parser pub = .error e → normalizePub parser pub = none)
    ∧ (∀ d, normalizePub parser pub = some d → parser pub = .ok d)
    ∧ (∀ root limit, ∃ its, fetch_rss_items (.doc root) parser limit = .ok its) := by
  refine ⟨?_, ?_, ?_, ?_⟩
  · intro h
    rw [normalizePub, if_pos h]
  · intro e he
    rw [normalizePub]
    split
    · rfl
    · rw [he]
  · intro d hd
    rw [normalizePub] at hd
    split at hd
    · cases hd
    · cases hp : parser pub with
      | ok x =>
        rw [hp] at hd
        cases hd
        rfl
      | error e =>
        rw [hp] at hd
        cases hd
  · intro root limit
    simp only [fetch_rss_items]
    split
    · exact ⟨[], rfl⟩
    · exact ⟨_, rfl⟩

/-- C7 witness: concrete degradations with the always-failing parser, and
a concrete document on which fetching still succeeds. -/
theorem C7_normalization_total_witness :
    normalizePub parser0 [] = none
    ∧ normalizePub parser0 (("not a date").data) = none
    ∧ (∃ its, fetch_rss_items (.doc rssDoc2) parser0 5 = .ok its) :=
  ⟨(C7_normalization_total parser0 []).1 rfl,
   (C7_normalization_total parser0 (("not a date").data)).2.1 () rfl,
   (C7_normalization_total parser0 []).2.2.2 rssDoc2 5⟩

/-! Claim C10. -/

theorem findDesc_eq_none_aux (tag : Str) : ∀ n, ∀ l : List XmlTree,
    sizeOf l ≤ n → hasTagList tag l = false → findDesc tag l = none := by
  intro n
  induction n with
  | zero =>
    intro l hl h
    cases l with
    | nil => simp [findDesc]
    | cons a rest =>
      simp only [List.cons.sizeOf_spec] at hl
      omega
  | succ n ih =>
    intro l hl h
    cases l with
    | nil => simp [findDesc]
    | cons a rest =>
      cases a with
      | node t tx ch =>
        simp only [hasTagList, hasTagTree, Bool.or_eq_false_iff] at h
        simp only [List.cons.sizeOf_spec, XmlTree.node.sizeOf_spec] at hl
        simp only [findDesc]
        rw [if_neg (by simp [h.1.1])]
        rw [ih ch (by omega) h.1.2]
        exact ih rest (by omega) h.2

theorem hasTagList_all_false (tag : Str) : ∀ l : List XmlTree,
    hasTagList tag l = false → ∀ c ∈ l, hasTagTree tag c = false := by
  intro l
  induction l with
  | nil => intro _ c hc; cases hc
  | cons a rest ih =>
    intro h c hc
    simp only [hasTagList, Bool.or_eq_false_iff] at h
    rcases List.mem_cons.mp hc with rfl | hc'
    · exact h.1
    · exact ih h.2 c hc'

/-- C10: a well-formed document containing no `channel` element at any
depth makes `fetch_rss_items` return the empty item list (no parse error),
and the run then delivers the empty-items notice. -/
theorem C10_no_channel_empty (parser : Str → Except Unit Int)
    (gen : Str → Except Str (Option Str)) (url topic : Str) (root : XmlTree)
    (h : hasTagTree ("channel").data root = false) :
    fetch_rss_items (.doc root) parser 10 = .ok []
    ∧ mainRun (.doc root) parser gen url topic = .delivered (cantReadMsg url) := by
  have hfd : findDesc ("channel").data root.children = none := by
    cases root with
    | node t tx ch =>
      simp only [hasTagTree, Bool.or_eq_false_iff] at h
      exact findDesc_eq_none_aux _ (sizeOf ch) ch le_rfl h.2
  have hfc : findChild root ("channel").data = none := by
    unfold findChild
    rw [List.find?_eq_none]
    intro x hx
    cases root with
    | node t tx ch =>
      simp only [hasTagTree, Bool.or_eq_false_iff] at h
      have := hasTagList_all_false _ ch h.2 x hx
      cases x with
      | node xt xx xch =>
        simp only [hasTagTree, Bool.or_eq_false_iff] at this
        simp [XmlTree.tag, this.1]
  have hfetch : fetch_rss_items (.doc root) parser 10 = .ok [] := by
    simp only [fetch_rss_items, hfc, hfd]
  refine ⟨hfetch, ?_⟩
  unfold mainRun
  rw [hfetch]
  simp

/-- C10 witness: the channel-less fixture document yields the empty item
list and the empty-items notice. -/
theorem C10_no_channel_empty_witness :
    fetch_rss_items (.doc noChannelDoc) parser0 10 = .ok []
    ∧ mainRun (.doc noChannelDoc) parser0 gen0 url0 topic0 =
        .delivered (cantReadMsg url0) :=
  C10_no_channel_empty parser0 gen0 url0 topic0 noChannelDoc (by rfl)

/-! Claim C4. -/

/-- C4 counterexample: the claim says a failed fetch still leads to a
delivered "couldn't read the feed" notice; in src/run.py the exception
from `requests.get`/`raise_for_status` is uncaught, so the run aborts with
no delivery at all. -/
theorem C4_fetch_failure_aborts :
    mainRun .fetchFail parser0 gen0 url0 topic0 = .aborted .fetchError := rfl

/-- C4 (amended): network/HTTP errors and XML parse errors propagate as
uncaught exceptions and abort the run without any delivery attempt; the
"couldn't read the feed" notice is delivered only when fetching and
parsing succeed but produce an empty item list. -/
theorem C4_failures_abort_run (parser : Str → Except Unit Int)
    (gen : Str → Except Str (Option Str)) (url topic : Str) :
    mainRun .fetchFail parser gen url topic = .aborted .fetchError
    ∧ mainRun .parseFail parser gen url topic = .aborted .parseError
    ∧ ∀ root, fetch_rss_items (.doc root) parser 10 = .ok [] →
        mainRun (.doc root) parser gen url topic = .delivered (cantReadMsg url) := by
  refine ⟨rfl, rfl, ?_⟩
  intro root hf
  unfold mainRun
  rw [hf]
  simp

/-- C4 (amended) witness: the empty-channel fixture takes the notice
branch. -/
theorem C4_failures_abort_run_witness :
    mainRun (.doc emptyChannelDoc) parser0 gen0 url0 topic0 =
      .delivered (cantReadMsg url0) :=
  (C4_failures_abort_run parser0 gen0 url0 topic0).2.2 emptyChannelDoc (by rfl)

/-! Claim C5. -/

/-- Modelled from the spec: the fixed "no relevant news in the last N
days" notice of spec §4.8/§8, parameterized by the lookback window length.
No such notice exists in src/run.py; this rendering follows the spec
scenario wording so the delivered text can be compared against it. -/
def specNoRelevantNewsNotice (days : Nat) : Str :=
  ("Radar IA: no relevant news in the last ").data ++ natToStr days
    ++ (" days.").data

/-- C5 counterexample: on an empty candidate set the delivered digest is
the "couldn't read the RSS" notice parameterized by the feed URL — it
varies with the URL (two URLs, two texts) although any lookback window
would be the same, and it differs from the spec's "no relevant news in
the last 7 days" notice. -/
theorem C5_empty_delivers_cant_read :
    mainRun (.doc emptyChannelDoc) parser0 gen0 urlA topic0 =
      .delivered (cantReadMsg urlA)
    ∧ mainRun (.doc emptyChannelDoc) parser0 gen0 urlB topic0 =
      .delivered (cantReadMsg urlB)
    ∧ cantReadMsg urlA ≠ cantReadMsg urlB
    ∧ cantReadMsg urlA ≠ specNoRelevantNewsNotice 7 :=
  ⟨rfl, rfl, by decide, by decide⟩

/-- C5 (amended): whenever fetching and parsing succeed but the built
candidate set is empty, the delivered digest is the fixed "não consegui
ler o RSS" notice parameterized by the feed URL, and its length is the
fixed prefix length plus the URL length (bounded for a bounded URL). -/
theorem C5_empty_notice (parser : Str → Except Unit Int)
    (gen : Str → Except Str (Option Str)) (url topic : Str) (root : XmlTree)
    (hf : fetch_rss_items (.doc root) parser 10 = .ok []) :
    mainRun (.doc root) parser gen url topic = .delivered (cantReadMsg url)
    ∧ (cantReadMsg url).length = cantReadPre.length + url.length := by
  constructor
  · unfold mainRun
    rw [hf]
    simp
  · simp [cantReadMsg]

/-- C5 (amended) witness. -/
theorem C5_empty_notice_witness :
    mainRun (.doc emptyChannelDoc) parser0 gen0 url0 topic0 =
      .delivered (cantReadMsg url0)
    ∧ (cantReadMsg url0).length = cantReadPre.length + url0.length :=
  C5_empty_notice parser0 gen0 url0 topic0 emptyChannelDoc (by rfl)

/-! Claim C9. -/

/-- C9: when generation raises or returns blank text for a non-empty
selection, the run still delivers: the text handed to delivery is the
deterministic title+link fallback listing (annotated with the failure
category, `RuntimeError` for the blank case), passed through the output
bounder; and the listing contains every ranked candidate's title and link
together with the failure name. -/
theorem C9_generation_fallback (inp : FetchInput)
    (parser : Str → Except Unit Int) (gen : Str → Except Str (Option Str))
    (url topic : Str) (items : List Item)
    (hf : fetch_rss_items inp parser 10 = .ok items) (hne : items ≠ []) :
    (∀ ename, gen (build_prompt (items.take 5) topic) = .error ename →
      mainRun inp parser gen url topic =
        .delivered (boundOutput (fallbackMsg ename (items.take 5))))
    ∧ (∀ ot, gen (build_prompt (items.take 5) topic) = .ok ot →
        strip (ot.getD []) = [] →
        mainRun inp parser gen url topic =
          .delivered (boundOutput (fallbackMsg (("RuntimeError").data) (items.take 5))))
    ∧ (∀ ename it, it ∈ items.take 5 →
        it.title <:+: fallbackMsg ename (items.take 5)
        ∧ it.link <:+: fallbackMsg ename (items.take 5)
        ∧ ename <:+: fallbackMsg ename (items.take 5)) := by
  refine ⟨?_, ?_, ?_⟩
  · intro ename hg
    unfold mainRun
    rw [hf]
    simp only [if_neg hne, hg]
  · intro ot hg hblank
    unfold mainRun
    rw [hf]
    simp only [if_neg hne, hg, hblank]
    simp
  · intro ename it hit
    have hline : fallbackLine it ∈
        ((("Radar IA (fallback) — não consegui resumir via OpenAI.\nMotivo: ").data
          ++ ename ++ ("\n").data) :: (items.take 5).map fallbackLine) :=
      List.mem_cons_of_mem _ (List.mem_map_of_mem _ hit)
    have hjoin := infix_joinSep_of_mem (("\n").data) hline
    have hhd := infix_joinSep_of_mem (("\n").data)
      (List.mem_cons_self
        ((("Radar IA (fallback) — não consegui resumir via OpenAI.\nMotivo: ").data
          ++ ename ++ ("\n").data) : Str) ((items.take 5).map fallbackLine))
    refine ⟨?_, ?_, ?_⟩
    · have ht : it.title <:+: fallbackLine it :=
        ⟨("- ").data, ("\n  ").data ++ it.link, by simp [fallbackLine]⟩
      exact ht.trans hjoin
    · have hl : it.link <:+: fallbackLine it :=
        ⟨("- ").data ++ it.title ++ ("\n  ").data, [], by simp [fallbackLine]⟩
      exact hl.trans hjoin
    · have he : ename <:+:
          (("Radar IA (fallback) — não consegui resumir via OpenAI.\nMotivo: ").data
            ++ ename ++ ("\n").data) :=
        ⟨("Radar IA (fallback) — não consegui resumir via OpenAI.\nMotivo: ").data,
          ("\n").data, rfl⟩
      exact he.trans hhd

/-- C9 witness: a concrete two-item feed whose generation stub raises
`APIError` delivers the bounded fallback listing containing the first
item's title, link, and the failure name. -/
theorem C9_generation_fallback_witness :
    mainRun (.doc rssDoc2) parserD genFail url0 topic0 =
      .delivered (boundOutput (fallbackMsg (("APIError").data)
        ((([⟨("A2").data, ("http://a2").data, none, [], []⟩,
            ⟨("A1").data, ("http://a1").data, some 100, [], ("d1").data⟩] : List Item)).take 5)))
    ∧ ("A2").data <:+: fallbackMsg (("APIError").data)
        (([⟨("A2").data, ("http://a2").data, none, [], []⟩,
           ⟨("A1").data, ("http://a1").data, some 100, [], ("d1").data⟩] : List Item).take 5) := by
  have h := C9_generation_fallback (.doc rssDoc2) parserD genFail url0 topic0
    [⟨("A2").data, ("http://a2").data, none, [], []⟩,
     ⟨("A1").data, ("http://a1").data, some 100, [], ("d1").data⟩]
    (by rfl) (by simp)
  refine ⟨h.1 (("APIError").data) rfl, ?_⟩
  have h2 := (h.2.2 (("APIError").data)
    (⟨("A2").data, ("http://a2").data, none, [], []⟩ : Item) (by decide)).1
  simpa using h2

/-! Claim C3. -/

/-- C3 (amended): the output-bounding step returns the text unchanged when
its length is at most 3800; otherwise it applies whitespace-collapsing,
word-based shortening — the result never exceeds 3800 characters, and it
contains the truncation marker `(...)` whenever the whitespace-collapsed
text still exceeds 3800; when collapsing alone brings the text within
budget the marker can be absent. -/
theorem C3_bound_output (text : Str) :
    (boundOutput text).length ≤ 3800
    ∧ (text.length ≤ 3800 → boundOutput text = text)
    ∧ (3800 < text.length → 3800 < (collapseWs text).length →
        MARKER <:+: boundOutput text) := by
  refine ⟨?_, ?_, ?_⟩
  · unfold boundOutput
    split
    · exact wrapGo_length_le 3800 PH (by decide) _
    next h => omega
  · intro h
    unfold boundOutput
    rw [if_neg (by omega)]
  · intro h1 h2
    unfold boundOutput
    rw [if_pos h1]
    unfold shorten3800 wordsepChunks
    have hw := splitWs_words text
    have hcoll : splitWs (collapseWs text) = splitWs text := by
      unfold collapseWs
      exact splitWs_joinSep (splitWs text) hw
    rw [hcoll]
    refine wrapGo_marker_of_overflow (splitWs text) hw ?_
    rw [sumLens_mkChunks]
    exact h2

theorem splitWs_no_space (s : Str)
    (hs : s.all (fun c => !isSpaceChar c) = true) (hne : s ≠ []) :
    splitWs s = [s] := by
  have h1 : splitWsAux (s ++ []) [] = splitWsAux [] (s.reverse ++ []) :=
    splitWsAux_nonspace_run s hs [] []
  rw [List.append_nil, List.append_nil] at h1
  unfold splitWs
  rw [h1]
  unfold splitWsAux
  rw [if_neg (by simpa using hne)]
  simp

theorem splitWsAux_spaces (n : Nat) :
    splitWsAux (List.replicate n ' ') [] = [] := by
  induction n with
  | zero => rfl
  | succ n ih =>
    show splitWsAux (' ' :: List.replicate n ' ') [] = []
    rw [splitWsAux]
    rw [if_pos (by decide), if_pos rfl]
    exact ih

def c3LongText : Str := List.replicate 3801 'a'

theorem c3LongText_nonspace :
    c3LongText.all (fun c => !isSpaceChar c) = true := by
  rw [List.all_eq_true]
  intro x hx
  rw [List.eq_of_mem_replicate hx]
  decide

theorem c3LongText_length : c3LongText.length = 3801 := by
  rw [c3LongText, List.length_replicate]

theorem c3LongText_collapse : collapseWs c3LongText = c3LongText := by
  unfold collapseWs
  rw [splitWs_no_space c3LongText c3LongText_nonspace
    (by
      rw [c3LongText]
      intro h
      have hll := congrArg List.length h
      rw [List.length_replicate, List.length_nil] at hll
      omega)]
  rfl

/-- C3 (amended) witness: a 3801-character single word is shortened to a
text of length at most 3800 containing the marker. -/
theorem C3_bound_output_witness :
    (boundOutput c3LongText).length ≤ 3800
    ∧ MARKER <:+: boundOutput c3LongText :=
  ⟨(C3_bound_output c3LongText).1,
   (C3_bound_output c3LongText).2.2 (by rw [c3LongText_length]; omega)
     (by rw [c3LongText_collapse, c3LongText_length]; omega)⟩

def c3SpacedText : Str := 'a' :: List.replicate 3800 ' '

theorem c3SpacedText_split : splitWs c3SpacedText = [['a']] := by
  unfold c3SpacedText splitWs
  rw [splitWsAux]
  rw [if_neg (by decide)]
  show splitWsAux (' ' :: List.replicate 3799 ' ') ['a'] = [['a']]
  rw [splitWsAux]
  rw [if_pos (by decide), if_neg (by decide)]
  rw [splitWsAux_spaces]
  decide

/-- C3 counterexample: a 3801-character input (one letter followed by
3800 spaces) exceeds the 3800 budget, yet the output-bounding step returns
just `a` — whitespace collapsing absorbed the excess, so the result does
NOT contain the truncation marker, refuting the claimed "contains the
marker iff the original length exceeded 3800". -/
theorem C3_marker_missing :
    3800 < c3SpacedText.length
    ∧ boundOutput c3SpacedText = ['a']
    ∧ ¬ MARKER <:+: boundOutput c3SpacedText := by
  have hlen : c3SpacedText.length = 3801 := by
    rw [c3SpacedText, List.length_cons, List.length_replicate]
  have hbo : boundOutput c3SpacedText = ['a'] := by
    unfold boundOutput
    rw [if_pos (by omega)]
    unfold shorten3800 wordsepChunks collapseWs
    rw [c3SpacedText_split]
    show wrapGo 3800 PH (mkChunks (splitWs ['a'])) = ['a']
    have hs : splitWs ['a'] = [['a']] := rfl
    rw [hs]
    show wrapGo 3800 PH [['a']] = ['a']
    rw [wrapGo]
    rw [if_neg (by decide)]
    have hws : wrapStep 3800 [['a']] = ([['a']], []) := by decide
    rw [hws]
    simp [joinAll]
  refine ⟨by omega, hbo, ?_⟩
  rw [hbo]
  decide

/-! Claim C8. -/

theorem bulletsFrom_mem : ∀ (its : List Item) (k i : Nat) (it : Item),
    its[i]? = some it → bullet (k + i) it ∈ bulletsFrom k its := by
  intro its
  induction its with
  | nil => intro k i it h; simp at h
  | cons a t ih =>
    intro k i it h
    cases i with
    | zero =>
      simp only [List.getElem?_cons_zero, Option.some.injEq] at h
      subst h
      simp only [Nat.add_zero, bulletsFrom]
      exact List.mem_cons_self _ _
    | succ n =>
      simp only [List.getElem?_cons_succ] at h
      have hmem := ih (k + 1) n it h
      have harith : k + (n + 1) = (k + 1) + n := by omega
      rw [harith]
      exact List.mem_cons_of_mem _ hmem

/-- C8 (amended): for every selected candidate, the assembler renders one
entry (its whitespace-trimmed form appears in the final prompt) carrying
the 1-based index with the title, the link, the 300-character excerpt,
and the date field — rendered from the timestamp when publishedAt is
known, but from the RAW pubDate string when publishedAt is unknown and
the raw string is non-empty; the explicit `sem data` marker appears only
when the raw string is also empty. -/
theorem C8_prompt_entries (topic : Str) (its : List Item) (i : Nat) (it : Item)
    (h : its[i]? = some it) :
    strip (bullet (i + 1) it) <:+: build_prompt its topic
    ∧ (natToStr (i + 1) ++ (". Título: ").data ++ it.title) <:+: bullet (i + 1) it
    ∧ it.link <:+: bullet (i + 1) it
    ∧ it.description.take 300 <:+: bullet (i + 1) it
    ∧ (∀ d, it.published_dt = some d → isoformat d <:+: bullet (i + 1) it)
    ∧ (it.published_dt = none → it.pub_raw ≠ [] → it.pub_raw <:+: bullet (i + 1) it)
    ∧ (it.published_dt = none → it.pub_raw = [] →
        ("sem data").data <:+: bullet (i + 1) it) := by
  have hmem : bullet (i + 1) it ∈ bulletsFrom 1 its := by
    have hb := bulletsFrom_mem its 1 i it h
    rwa [Nat.add_comm] at hb
  have hjoined := infix_joinSep_of_mem (("\n\n").data) hmem
  have hwhole : bullet (i + 1) it <:+:
      promptPre ++ topic ++ promptMid ++ joinSep (("\n\n").data) (bulletsFrom 1 its)
        ++ ("\n").data := by
    refine hjoined.trans ?_
    exact ⟨promptPre ++ topic ++ promptMid, ("\n").data, rfl⟩
  refine ⟨?_, ?_, ?_, ?_, ?_, ?_, ?_⟩
  · exact strip_mono hwhole
  · exact ⟨[], ("\n   Data: ").data ++ renderDate it ++ ("\n   Link: ").data
      ++ it.link ++ ("\n   Trecho/descrição: ").data ++ it.description.take 300,
      by simp [bullet, List.append_assoc]⟩
  · exact ⟨natToStr (i + 1) ++ (". Título: ").data ++ it.title
      ++ ("\n   Data: ").data ++ renderDate it ++ ("\n   Link: ").data,
      ("\n   Trecho/descrição: ").data ++ it.description.take 300,
      by simp [bullet, List.append_assoc]⟩
  · exact ⟨natToStr (i + 1) ++ (". Título: ").data ++ it.title
      ++ ("\n   Data: ").data ++ renderDate it ++ ("\n   Link: ").data
      ++ it.link ++ ("\n   Trecho/descrição: ").data, [],
      by simp [bullet, List.append_assoc]⟩
  · intro d hd
    have hrd : renderDate it = isoformat d := by
      simp [renderDate, hd]
    refine ⟨natToStr (i + 1) ++ (". Título: ").data ++ it.title
      ++ ("\n   Data: ").data,
      ("\n   Link: ").data ++ it.link ++ ("\n   Trecho/descrição: ").data
        ++ it.description.take 300, ?_⟩
    rw [← hrd]
    simp [bullet, List.append_assoc]
  · intro hnone hraw
    have hrd : renderDate it = it.pub_raw := by
      simp [renderDate, hnone, hraw]
    refine ⟨natToStr (i + 1) ++ (". Título: ").data ++ it.title
      ++ ("\n   Data: ").data,
      ("\n   Link: ").data ++ it.link ++ ("\n   Trecho/descrição: ").data
        ++ it.description.take 300, ?_⟩
    rw [← hrd]
    simp [bullet, List.append_assoc]
  · intro hnone hraw
    have hrd : renderDate it = ("sem data").data := by
      simp [renderDate, hnone, hraw]
    refine ⟨natToStr (i + 1) ++ (". Título: ").data ++ it.title
      ++ ("\n   Data: ").data,
      ("\n   Link: ").data ++ it.link ++ ("\n   Trecho/descrição: ").data
        ++ it.description.take 300, ?_⟩
    rw [← hrd]
    simp [bullet, List.append_assoc]

def c8DatedItem : Item :=
  ⟨("T").data, ("L").data, some 5, ("desc").data, ("raw").data⟩

/-- C8 (amended) witness: a dated candidate's entry appears in the prompt
and carries the rendered timestamp. -/
theorem C8_prompt_entries_witness :
    strip (bullet 1 c8DatedItem) <:+: build_prompt [c8DatedItem] topic0
    ∧ isoformat 5 <:+: bullet 1 c8DatedItem :=
  ⟨(C8_prompt_entries topic0 [c8DatedItem] 0 c8DatedItem rfl).1,
   (C8_prompt_entries topic0 [c8DatedItem] 0 c8DatedItem rfl).2.2.2.2.1 5 rfl⟩

def c8Item : Item := ⟨("T").data, ("L").data, none, [], ("xyz").data⟩

/-- C8 counterexample: for a candidate whose pubDate string `xyz` did not
parse (publishedAt unknown), the rendered entry shows the raw string
`xyz`, not the `sem data` marker the claim requires for every
unknown-dated candidate — neither the entry nor the assembled prompt
contains `sem data`. -/
theorem C8_raw_date_instead_of_marker :
    c8Item.published_dt = none
    ∧ ("xyz").data <:+: bullet 1 c8Item
    ∧ ¬ (("sem data").data <:+: bullet 1 c8Item)
    ∧ ¬ (("sem data").data <:+: build_prompt [c8Item] topic0) := by
  refine ⟨rfl, by decide, by decide, by decide⟩
